import Mathlib

/-!
# Verification of the dcrfeesim simulation driver

Shallow embedding of `feesim.go` (package `main` of matheusd/dcrfeesim) and,
where the repository's simulator internals are not available, definitions
modelled from the specification.  The driver's control flow — argument
validation, the per-height simulation loop, the post-run report — is embedded
as executable Lean definitions, and the specification's claims are settled
against them.
-/

namespace Feesim

/-! ## Command-line validation (feesim.go, `main`, lines 189–203)

The Go code reads one positional argument, parses it with `strconv.Atoi`,
checks `testNb-1 > len(testCases)`, and then indexes `testCases[testNb-1]`.
There are 8 entries in the `testCases` table.  Indexing a Go slice out of
range (index < 0 or index ≥ length) panics, terminating the process with
exit code 2, not 1. -/

/-- Number of entries of the `testCases` table (test cases 01 through 08). -/
def numTestCases : Nat := 8

/-- Outcome of the argument-validation prefix of `main`:
`exitMissingArg` models `os.Exit(1)` after "Please specify the test number";
`exitNotNumber` models `os.Exit(1)` after "Please specify a number as test case";
`exitOutOfRange` models `os.Exit(1)` after "Please specify a test in the range of 1-8";
`panicIndexOutOfRange` models the Go runtime panic on `testCases[testNb-1]`
(process exit code 2); `run i` means the simulation proceeds with
`actualTest := testCases[i]`. -/
inductive CliResult where
  | exitMissingArg
  | exitNotNumber
  | exitOutOfRange
  | panicIndexOutOfRange
  | run (testIdx : Nat)
  deriving DecidableEq, Repr

/-- The parsed positional argument: `missing` when `len(flag.Args()) < 1`,
`notNumber` when `strconv.Atoi` fails, `number n` otherwise. -/
inductive ParsedArg where
  | missing
  | notNumber
  | number (n : Int)
  deriving DecidableEq, Repr

/-- Argument validation of `main` (feesim.go lines 189–203).  The range check
is `testNb-1 > len(testCases)`, exactly as in the source; when it passes,
the slice access `testCases[testNb-1]` succeeds only for `0 ≤ testNb-1 < 8`
and panics otherwise. -/
def cliCheck (arg : ParsedArg) : CliResult :=
  match arg with
  | .missing => .exitMissingArg
  | .notNumber => .exitNotNumber
  | .number n =>
      if n - 1 > (numTestCases : Int) then .exitOutOfRange
      else if 0 ≤ n - 1 ∧ n - 1 < (numTestCases : Int) then .run (n - 1).toNat
      else .panicIndexOutOfRange

/-! ## The simulated heights (feesim.go lines 227–230)

`startHeight := uint32(1)`, `endHeight := startHeight + uint32(*lenSimulation) - 1`,
`for h := startHeight; h < endHeight; h++`.  For `0 ≤ L < 2^32` the `uint32`
arithmetic agrees with truncated `Nat` subtraction below. -/

/-- `startHeight := uint32(1)`. -/
def startHeight : Nat := 1

/-- `endHeight := startHeight + uint32(*lenSimulation) - 1`. -/
def endHeight (L : Nat) : Nat := startHeight + L - 1

/-- The heights actually iterated by `for h := startHeight; h < endHeight; h++`:
the list `[startHeight, startHeight+1, ..., endHeight-1]`. -/
def simulatedHeights (L : Nat) : List Nat :=
  List.range' startHeight (endHeight L - startHeight)

/-! ## Event trace of the driver loop (feesim.go lines 230–302)

The loop body and the post-loop report are embedded as the sequence of
component invocations they perform.  The number of mined and of newly
generated transactions at each height is abstracted by functions
`mc nc : Nat → Nat` (they are produced by the simulator, whose internals do
not affect the invocation order). -/

/-- One component invocation performed by `main`. -/
inductive Event where
  | mineTransactions (h : Nat)
  | genTransactions (h : Nat)
  | trackHistograms (h : Nat)
  | updateMovingAverages (h : Nat)
  | processMinedTransaction (h : Nat) (txIdx : Nat)
  | addMemPoolTransaction (h : Nat) (txIdx : Nat)
  | updateDatabase (h : Nat)
  | close
  | estimateFee (target : Int)
  | reportSimHistograms
  | dumpBuckets
  deriving DecidableEq, Repr

/-- The invocations of one iteration of the simulation loop
(feesim.go lines 231–249), in source order: `sim.mineTransactions`, then
`sim.genTransactions`, then `sim.trackHistograms`, then
`estimatorFuncs.UpdateMovingAverages`, then one
`estimatorFuncs.ProcessMinedTransaction` per mined transaction, then one
`estimator.AddMemPoolTransaction` per new transaction, then — only when the
`usefeesfile` flag is set — `estimatorFuncs.UpdateDatabase`. -/
def heightTrace (useFeesFile : Bool) (h nm nn : Nat) : List Event :=
  [Event.mineTransactions h, Event.genTransactions h, Event.trackHistograms h,
   Event.updateMovingAverages h]
  ++ ((List.range nm).map (Event.processMinedTransaction h)
    ++ ((List.range nn).map (Event.addMemPoolTransaction h)
      ++ (if useFeesFile then [Event.updateDatabase h] else [])))

/-- The full invocation trace of a completed run of `main`
(feesim.go lines 230–302): the loop over `simulatedHeights`, then
`estimator.Close()`, then one `estimator.EstimateFee` per configured target
confirmation, then `sim.reportSimHistograms()` and `estimator.DumpBuckets()`. -/
def runTrace (useFeesFile : Bool) (L : Nat) (mc nc : Nat → Nat)
    (targets : List Int) : List Event :=
  ((simulatedHeights L).flatMap fun h => heightTrace useFeesFile h (mc h) (nc h))
  ++ (Event.close
    :: (targets.map Event.estimateFee
      ++ [Event.reportSimHistograms, Event.dumpBuckets]))

/-- The trace of a run in which `UpdateDatabase` reports an error at the
heights given by `udbErr`.  In the source (feesim.go lines 247–249) the call
is `estimatorFuncs.UpdateDatabase()` with the returned error discarded, so
the control flow — and hence the trace — does not depend on `udbErr` at all. -/
def runTraceWithDbError (udbErr : Nat → Bool) (L : Nat) (mc nc : Nat → Nat)
    (targets : List Int) : List Event :=
  runTrace true L mc nc targets

/-- Recognizes the `UpdateDatabase` invocations in a trace. -/
def isUpdateDatabase : Event → Bool
  | .updateDatabase _ => true
  | _ => false

/-- Recognizes the `UpdateMovingAverages` invocations in a trace. -/
def isUpdateMovingAverages : Event → Bool
  | .updateMovingAverages _ => true
  | _ => false

/-- Recognizes the `ProcessMinedTransaction` invocations in a trace. -/
def isProcessMinedTransaction : Event → Bool
  | .processMinedTransaction _ _ => true
  | _ => false

/-- Recognizes the post-run estimator queries: `EstimateFee` and
`DumpBuckets`. -/
def isEstimatorQuery : Event → Bool
  | .estimateFee _ => true
  | .dumpBuckets => true
  | _ => false

/-- Recognizes the `Close` invocation in a trace. -/
def isClose : Event → Bool
  | .close => true
  | _ => false

/-! ## Post-run fee-estimate report (feesim.go lines 274–293)

For each configured target confirmation, `main` appends a 12-character cell
to line `l1` (the target) and to line `l2` (the estimate or an error
marker).  `EstimateFee` is external; its outcome at a target is modelled by
`EstimateResult`, with `errOther` standing for every error value other than
the three distinguished kinds. -/

/-- Outcome of `estimator.EstimateFee(t)`: a fee rate, one of the three
distinguished errors (`fees.ErrNoSuccessPctBucketFound`,
`fees.ErrNotEnoughTxsForEstimate`, `fees.ErrTargetConfTooLarge`), or any
other error value (`errOther`). -/
inductive EstimateResult where
  | ok (fee : Int)
  | errNoSuccessPctBucketFound
  | errNotEnoughTxsForEstimate
  | errTargetConfTooLarge
  | errOther
  deriving DecidableEq, Repr

/-- Left-pads `s` with `c` to length `w` (the padding of Go's `%12d`,
`%12.8f` verbs). -/
def padLeft (c : Char) (w : Nat) (s : String) : String :=
  String.mk (List.replicate (w - s.length) c) ++ s

/-- The cell printed for a successful estimate:
`fmt.Sprintf("%12.8f", float64(fee)/1e8)`.  For the integer fee rates the
estimator returns (`0 ≤ fee < 2^52`) the printed decimal is the exact value
`fee / 10^8` with eight fractional digits, which is what this produces. -/
def feeCell (fee : Int) : String :=
  padLeft ' ' 12
    (toString (fee / 100000000) ++ "." ++ padLeft '0' 8 (toString (fee % 100000000)))

/-- The cell appended to line `l1`: `fmt.Sprintf("%12d", t)`. -/
def confCell (t : Int) : String := padLeft ' ' 12 (toString t)

/-- The cell appended to line `l2` for one target confirmation: the
`if`/`else if` chain of feesim.go lines 279–291, in source order. -/
def renderCell (r : EstimateResult) : String :=
  match r with
  | .errNoSuccessPctBucketFound => "   noSuccBkt"
  | .errNotEnoughTxsForEstimate => "   notEnghTx"
  | .errTargetConfTooLarge => " cftTooLarge"
  | .errOther => "         err"
  | .ok fee => feeCell fee

/-- The per-target cells of line `l2`, in target order. -/
def reportCells (estimate : Int → EstimateResult) (targets : List Int) : List String :=
  targets.map fun t => renderCell (estimate t)

/-- Concatenation of a list of cells into one line. -/
def joinCells (cells : List String) : String :=
  cells.foldl (fun acc c => acc ++ c) ""

/-- The report loop of feesim.go lines 274–293: starting from two empty
lines, one iteration per configured target confirmation, appending the
target cell to `l1` and the estimate/error cell to `l2`. -/
def reportLines (estimate : Int → EstimateResult) (targets : List Int) : String × String :=
  targets.foldl (fun p t => (p.1 ++ confCell t, p.2 ++ renderCell (estimate t))) ("", "")

/-! ## The transaction pool and the block miner

The simulator's own source (`mineTransactions`, the heap-backed `txPool`) is
not part of src/ — only its caller `feesim.go` is.  The definitions below
are therefore modelled from the specification (§3, §4.1, §4.3). -/

/-- Modelled from the spec (§3 SimTransaction): a synthetic transaction —
opaque identifier, fee amount in the smallest currency unit, size in bytes;
the fee rate is the derived quantity `fee / size`. -/
structure SimTx where
  txHash : Nat
  fee : Nat
  size : Nat
  deriving DecidableEq, Repr

/-- The derived fee rate `fee / size` of a transaction (§3). -/
def feeRate (t : SimTx) : ℚ := (t.fee : ℚ) / (t.size : ℚ)

/-- Transactions ordered by fee rate descending — the order maintained by
the pool and required of mined blocks. -/
def feeRateDesc (a b : SimTx) : Prop := feeRate b ≤ feeRate a

/-- Modelled from the spec (§4.1 ExtractTopUnderBudget): with the pool given
in fee-rate-descending order (its invariant) and `used` bytes of the budget
already consumed, repeatedly remove the highest-fee-rate transaction while
its fee rate is at least `minRate` and the extracted sizes stay within
`budget`; on the first transaction failing either test, stop, leaving it and
everything after it in the pool.  Returns (extracted, remaining). -/
def extractAux (minRate : ℚ) (budget : Nat) : List SimTx → Nat → List SimTx × List SimTx
  | [], _ => ([], [])
  | tx :: rest, used =>
      if minRate ≤ feeRate tx ∧ used + tx.size ≤ budget then
        let r := extractAux minRate budget rest (used + tx.size)
        (tx :: r.1, r.2)
      else ([], tx :: rest)

/-- Modelled from the spec (§4.1): `ExtractTopUnderBudget(sizeBudget,
minFeeRate)` on a fee-rate-descending pool. -/
def extractTopUnderBudget (pool : List SimTx) (sizeBudget : Nat) (minFeeRate : ℚ) :
    List SimTx × List SimTx :=
  extractAux minFeeRate sizeBudget pool 0

/-- Modelled from the spec (§4.3): `MineBlock` delegates to the pool's
`ExtractTopUnderBudget`. -/
def mineBlock (pool : List SimTx) (blockSizeBudget : Nat) (minimumFeeRate : ℚ) :
    List SimTx × List SimTx :=
  extractTopUnderBudget pool blockSizeBudget minimumFeeRate

/-- A sample pool in fee-rate-descending order (the scenario of spec §8:
fee rates 8, 5, 3, 1 with size 1 each). -/
def samplePool : List SimTx := [⟨0, 8, 1⟩, ⟨1, 5, 1⟩, ⟨2, 3, 1⟩, ⟨3, 1, 1⟩]

/-! ## The simulation run as a function of seed and configuration

The Workload Generator, Histogram Tracker and random stream are simulator
internals not under src/; they are modelled from the specification (§4.2,
§4.4, §5) as pure functions threading an explicit PRNG state.  The driver
loop itself follows feesim.go lines 230–245 (mine, then generate, then track
histograms). -/

/-- Modelled from the spec (§5): the seeded pseudo-random stream, a pure
transition on an explicit state (a 64-bit linear-congruential step standing
in for the simulator's source of randomness).  Returns (draw, next state). -/
def rngNext (s : Nat) : Nat × Nat :=
  let s2 := (s * 6364136223846793005 + 1442695040888963407) % 18446744073709551616
  (s2 / 65536 % 4294967296, s2)

/-- Modelled from the spec (§3 SimulatorConfig): transaction-count intensity
`nbTxsCoef`, size intensity `txSizeCoef`, the minimum relay fee rate, the
fee-rate distribution coefficient, and the optional fixed reporting buckets
(the Go struct stores the coefficients as float64; they are modelled as
natural-number intensities). -/
structure simulatorConfig where
  nbTxsCoef : Nat
  txSizeCoef : Nat
  minimumFeeRate : Nat
  feeRateCoef : Nat
  feeRateHistReportValues : List Nat
  deriving DecidableEq, Repr

/-- Modelled from the spec (§4.2): the per-transaction draws of
`GenerateForHeight` — a size with mean scaling with `txSizeCoef` (always
positive) and a fee rate distributed according to `feeRateCoef`, floored at
`minimumFeeRate` (with mass exactly at the floor); every draw comes from the
threaded PRNG state. -/
def genTxList (cfg : simulatorConfig) (h : Nat) : Nat → Nat → Nat → List SimTx × Nat
  | 0, _, rng => ([], rng)
  | k + 1, idx, rng =>
      let p1 := rngNext rng
      let size := p1.1 % (2 * cfg.txSizeCoef + 1) + 1
      let p2 := rngNext p1.2
      let rate := max cfg.minimumFeeRate (p2.1 % (2 * cfg.feeRateCoef + 1))
      let rest := genTxList cfg h k (idx + 1) p2.2
      (⟨h * 1000000 + idx, rate * size, size⟩ :: rest.1, rest.2)

/-- Modelled from the spec (§4.2): `GenerateForHeight` draws a transaction
count with mean scaling with `nbTxsCoef`, then the transactions themselves;
deterministic in (configuration, height, PRNG state). -/
def genTransactions (cfg : simulatorConfig) (h : Nat) (rng : Nat) : List SimTx × Nat :=
  let p := rngNext rng
  genTxList cfg h (p.1 % (2 * cfg.nbTxsCoef + 1)) 0 p.2

/-- Modelled from the spec (§3, §4.1): insertion into the
fee-rate-descending pool; ties go after the existing entries, so insertion
is deterministic. -/
def poolInsert (tx : SimTx) : List SimTx → List SimTx
  | [] => [tx]
  | t :: rest => if feeRate t < feeRate tx then tx :: t :: rest else t :: poolInsert tx rest

/-- Modelled from the spec (§4.4): with boundaries `b0 < b1 < ... < bk`, a
fee rate maps to the number of boundaries not exceeding it — bucket 0 is the
underflow bucket (below `b0`) and bucket `k+1` the overflow bucket. -/
def bucketIndex (bounds : List ℚ) (r : ℚ) : Nat :=
  (bounds.takeWhile fun b => decide (b ≤ r)).length

/-- Modelled from the spec (§4.2, §4.4): the reporting bucket boundaries —
the configured `feeRateHistReportValues` when present, otherwise boundaries
derived from the fee-rate coefficient. -/
def histBounds (cfg : simulatorConfig) : List ℚ :=
  if cfg.feeRateHistReportValues.isEmpty then
    [(0 : ℚ), (cfg.feeRateCoef : ℚ), ((2 * cfg.feeRateCoef : Nat) : ℚ),
     ((4 * cfg.feeRateCoef : Nat) : ℚ)]
  else cfg.feeRateHistReportValues.map fun v => (v : ℚ)

/-- Modelled from the spec (§3 HistogramState): per-bucket counts of mined
and of pending transactions, one slot per bucket including the underflow and
overflow buckets. -/
structure histogramState where
  mined : List Nat
  pending : List Nat
  deriving DecidableEq, Repr

/-- Increment slot `i` of a count vector. -/
def bumpAt (counts : List Nat) (i : Nat) : List Nat :=
  counts.set i (counts.getD i 0 + 1)

/-- The all-zero histogram over the given boundaries. -/
def initHistogram (bounds : List ℚ) : histogramState :=
  ⟨List.replicate (bounds.length + 1) 0, List.replicate (bounds.length + 1) 0⟩

/-- Modelled from the spec (§4.4 RecordHeight): each mined transaction bumps
the mined counter of its fee-rate bucket; each transaction of the
newly-generated set bumps the pending counter of its bucket (the spec leaves
the choice between the newly-generated set and the full remaining pool open;
the newly-generated set is used, consistently). -/
def recordHeight (bounds : List ℚ) (minedTxs newTxs : List SimTx)
    (hist : histogramState) : histogramState :=
  ⟨minedTxs.foldl (fun counts tx => bumpAt counts (bucketIndex bounds (feeRate tx))) hist.mined,
   newTxs.foldl (fun counts tx => bumpAt counts (bucketIndex bounds (feeRate tx))) hist.pending⟩

/-- Modelled from the spec (§4.3): the block size budget, a fixed simulation
parameter. -/
def blockSizeBudget : Nat := 300000

/-- The evolving state of a run, together with the per-height output
sequences the reproducibility property speaks about. -/
structure runState where
  pool : List SimTx
  rng : Nat
  hist : histogramState
  genSeq : List (List SimTx)
  minedSeq : List (List SimTx)
  histSnapshots : List histogramState
  deriving DecidableEq, Repr

/-- The state before the first iteration: empty pool, PRNG seeded, all-zero
histogram, empty output sequences. -/
def initState (seed : Nat) (cfg : simulatorConfig) : runState :=
  ⟨[], seed, initHistogram (histBounds cfg), [], [], []⟩

/-- One iteration of the driver loop (feesim.go lines 230–245): mine a block
from the current pool (line 231), then generate and insert this height's new
transactions (line 232), then record the histograms of the mined and the new
sets (line 233). -/
def simStep (cfg : simulatorConfig) (st : runState) (h : Nat) : runState :=
  let mined := mineBlock st.pool blockSizeBudget (cfg.minimumFeeRate : ℚ)
  let gen := genTransactions cfg h st.rng
  let pool2 := gen.1.foldl (fun p tx => poolInsert tx p) mined.2
  let hist2 := recordHeight (histBounds cfg) mined.1 gen.1 st.hist
  ⟨pool2, gen.2, hist2, st.genSeq ++ [gen.1], st.minedSeq ++ [mined.1],
   st.histSnapshots ++ [hist2]⟩

/-- A whole run: the driver loop of feesim.go lines 230–256 folded over the
simulated heights, starting from the seeded initial state.  Everything the
run produces is a function of the seed and the configuration. -/
def runSimulation (seed : Nat) (cfg : simulatorConfig) (L : Nat) : runState :=
  (simulatedHeights L).foldl (simStep cfg) (initState seed cfg)

/-- A small concrete configuration used to instantiate hypotheses. -/
def sampleConfig : simulatorConfig := ⟨3, 2, 1, 5, []⟩

/-! ## Helper lemmas about the trace -/

theorem takeWhile_append_all {α : Type} {p : α → Bool} {l1 l2 : List α}
    (h : ∀ e ∈ l1, p e = true) :
    (l1 ++ l2).takeWhile p = l1 ++ l2.takeWhile p := by
  induction l1 with
  | nil => simp
  | cons a t ih =>
      simp only [List.cons_append, List.takeWhile_cons, h a (List.mem_cons_self a t), if_true]
      rw [ih fun e he => h e (List.mem_cons_of_mem a he)]

theorem heightTrace_countP_updateDatabase (u : Bool) (h nm nn : Nat) :
    (heightTrace u h nm nn).countP isUpdateDatabase = if u then 1 else 0 := by
  cases u <;>
    simp [heightTrace, List.countP_append, List.countP_map, Function.comp_def,
      isUpdateDatabase, List.countP_cons, List.countP_false]

theorem heightTrace_countP_uma (u : Bool) (h nm nn : Nat) :
    (heightTrace u h nm nn).countP isUpdateMovingAverages = 1 := by
  cases u <;>
    simp [heightTrace, List.countP_append, List.countP_map, Function.comp_def,
      isUpdateMovingAverages, List.countP_cons, List.countP_false]

theorem heightTrace_countP_pmt (u : Bool) (h nm nn : Nat) :
    (heightTrace u h nm nn).countP isProcessMinedTransaction = nm := by
  cases u <;>
    simp [heightTrace, List.countP_append, List.countP_map, Function.comp_def,
      isProcessMinedTransaction, List.countP_cons, List.countP_false, List.countP_true]

theorem heightTrace_countP_query (u : Bool) (h nm nn : Nat) :
    (heightTrace u h nm nn).countP isEstimatorQuery = 0 := by
  cases u <;>
    simp [heightTrace, List.countP_append, List.countP_map, Function.comp_def,
      isEstimatorQuery, List.countP_cons, List.countP_false]

theorem heightTrace_countP_close (u : Bool) (h nm nn : Nat) :
    (heightTrace u h nm nn).countP isClose = 0 := by
  cases u <;>
    simp [heightTrace, List.countP_append, List.countP_map, Function.comp_def,
      isClose, List.countP_cons, List.countP_false]

theorem countP_flatMap_of_one (p : Event → Bool) (f : Nat → List Event) (hs : List Nat)
    (hp : ∀ h ∈ hs, (f h).countP p = 1) :
    (hs.flatMap f).countP p = hs.length := by
  induction hs with
  | nil => simp
  | cons a t ih =>
      rw [List.flatMap_cons, List.countP_append, hp a (List.mem_cons_self a t),
        ih fun h hh => hp h (List.mem_cons_of_mem a hh)]
      simp [Nat.add_comm]

theorem countP_flatMap_of_zero (p : Event → Bool) (f : Nat → List Event) (hs : List Nat)
    (hp : ∀ h ∈ hs, (f h).countP p = 0) :
    (hs.flatMap f).countP p = 0 := by
  induction hs with
  | nil => simp
  | cons a t ih =>
      rw [List.flatMap_cons, List.countP_append, hp a (List.mem_cons_self a t),
        ih fun h hh => hp h (List.mem_cons_of_mem a hh)]

theorem heightTrace_sublist_flatMap (u : Bool) (mc nc : Nat → Nat) (hs : List Nat)
    (h : Nat) (hmem : h ∈ hs) :
    (heightTrace u h (mc h) (nc h)).Sublist
      (hs.flatMap fun x => heightTrace u x (mc x) (nc x)) := by
  induction hs with
  | nil => cases hmem
  | cons a t ih =>
      rw [List.flatMap_cons]
      rcases List.mem_cons.mp hmem with rfl | hmem2
      · exact List.sublist_append_left _ _
      · exact (ih hmem2).trans (List.sublist_append_right _ _)

theorem chain_sublist_heightTrace (u : Bool) (h nm nn i j : Nat)
    (hi : i < nm) (hj : j < nn) :
    [Event.mineTransactions h, Event.genTransactions h, Event.trackHistograms h,
     Event.updateMovingAverages h, Event.processMinedTransaction h i,
     Event.addMemPoolTransaction h j].Sublist (heightTrace u h nm nn) := by
  show ([Event.mineTransactions h, Event.genTransactions h, Event.trackHistograms h,
     Event.updateMovingAverages h] ++
     ([Event.processMinedTransaction h i] ++ [Event.addMemPoolTransaction h j])).Sublist _
  unfold heightTrace
  refine List.Sublist.append (List.Sublist.refl _) (List.Sublist.append ?_ ?_)
  · exact List.singleton_sublist.mpr
      (List.mem_map.mpr ⟨i, List.mem_range.mpr hi, rfl⟩)
  · refine List.Sublist.trans ?_ (List.sublist_append_left _ _)
    exact List.singleton_sublist.mpr
      (List.mem_map.mpr ⟨j, List.mem_range.mpr hj, rfl⟩)

theorem prefix_chain_sublist_heightTrace (u : Bool) (h nm nn : Nat) :
    [Event.mineTransactions h, Event.genTransactions h, Event.trackHistograms h,
     Event.updateMovingAverages h].Sublist (heightTrace u h nm nn) := by
  unfold heightTrace
  exact List.sublist_append_left _ _

theorem heightTrace_sublist_runTrace (u : Bool) (L : Nat) (mc nc : Nat → Nat)
    (ts : List Int) (h : Nat) (hmem : h ∈ simulatedHeights L) :
    (heightTrace u h (mc h) (nc h)).Sublist (runTrace u L mc nc ts) := by
  unfold runTrace
  exact (heightTrace_sublist_flatMap u mc nc _ h hmem).trans (List.sublist_append_left _ _)

/-! ## Claims about the driver loop -/

/-- C1 (amended): when the `usefeesfile` flag is set, `UpdateDatabase` is
invoked exactly once per simulated height, but its returned error is
discarded (feesim.go line 248), so the run is independent of whether any of
those calls fail and always continues through all simulated heights. -/
theorem updateDatabase_once_per_height_error_ignored (udbErr : Nat → Bool) (L : Nat)
    (mc nc : Nat → Nat) (ts : List Int) :
    runTraceWithDbError udbErr L mc nc ts = runTrace true L mc nc ts
    ∧ (∀ h nm nn, (heightTrace true h nm nn).countP isUpdateDatabase = 1)
    ∧ (runTrace true L mc nc ts).countP isUpdateDatabase = (simulatedHeights L).length := by
  refine ⟨rfl, fun h nm nn => by simpa using heightTrace_countP_updateDatabase true h nm nn, ?_⟩
  unfold runTrace
  rw [List.countP_append, countP_flatMap_of_one _ _ _
    (fun h _ => by simpa using heightTrace_countP_updateDatabase true h (mc h) (nc h))]
  simp [List.countP_cons, List.countP_append, List.countP_map, Function.comp_def,
    isUpdateDatabase, List.countP_false]

/-- C1 counterexample: a run of 3 configured blocks with persistence enabled
in which `UpdateDatabase` reports an error at every height (in particular at
height 1, where it is invoked) still goes on to simulate height 2 — the run
does not abort when `UpdateDatabase` fails. -/
theorem updateDatabase_error_not_fatal_cex :
    (fun _ : Nat => true) 1 = true
    ∧ Event.updateDatabase 1 ∈ runTraceWithDbError (fun _ => true) 3 (fun _ => 0) (fun _ => 0) []
    ∧ Event.mineTransactions 2 ∈ runTraceWithDbError (fun _ => true) 3 (fun _ => 0) (fun _ => 0) [] := by
  decide

/-- C2 (amended): in every iteration of the simulation loop the components
run in the order Block Miner first, then Workload Generator, then Histogram
Tracker, then the external Estimator notifications — so at each height the
block is mined from the pool as it stood *before* that height's new
transactions are generated and inserted. -/
theorem miner_then_generator_order (u : Bool) (L : Nat) (mc nc : Nat → Nat)
    (ts : List Int) (h : Nat) (hmem : h ∈ simulatedHeights L) :
    [Event.mineTransactions h, Event.genTransactions h, Event.trackHistograms h,
     Event.updateMovingAverages h].Sublist (runTrace u L mc nc ts)
    ∧ (∀ i, i < mc h → ∀ j, j < nc h →
        [Event.mineTransactions h, Event.genTransactions h, Event.trackHistograms h,
         Event.updateMovingAverages h, Event.processMinedTransaction h i,
         Event.addMemPoolTransaction h j].Sublist (runTrace u L mc nc ts)) := by
  have hsub := heightTrace_sublist_runTrace u L mc nc ts h hmem
  exact ⟨(prefix_chain_sublist_heightTrace u h _ _).trans hsub,
    fun i hi j hj => (chain_sublist_heightTrace u h _ _ i j hi hj).trans hsub⟩

theorem miner_then_generator_order_witness :
    1 ∈ simulatedHeights 2
    ∧ [Event.mineTransactions 1, Event.genTransactions 1, Event.trackHistograms 1,
       Event.updateMovingAverages 1].Sublist (runTrace false 2 (fun _ => 1) (fun _ => 1) []) :=
  ⟨by decide, (miner_then_generator_order false 2 (fun _ => 1) (fun _ => 1) [] 1 (by decide)).1⟩

/-- C2 counterexample: at height 1 the invocation sequence of the loop body
does not have `genTransactions` before `mineTransactions` — the claim's order
(Workload Generator first, Block Miner second) is false on the code, which
calls `sim.mineTransactions` (line 231) before `sim.genTransactions`
(line 232). -/
theorem generator_before_miner_cex :
    ¬ [Event.genTransactions 1, Event.mineTransactions 1].Sublist (heightTrace false 1 0 0) := by
  decide

/-- C3 (amended): at every simulated height, `UpdateMovingAverages(height)`
is the hook invoked first, exactly once per height; `ProcessMinedTransaction`
is then invoked once per *mined transaction* (not once per height), after
`UpdateMovingAverages` and before the `AddMemPoolTransaction` notifications
for the newly generated transactions. -/
theorem uma_then_pmt_per_mined_tx (u : Bool) (h nm nn : Nat) :
    (heightTrace u h nm nn).countP isUpdateMovingAverages = 1
    ∧ (heightTrace u h nm nn).countP isProcessMinedTransaction = nm
    ∧ (∀ i, i < nm →
        [Event.updateMovingAverages h, Event.processMinedTransaction h i].Sublist
          (heightTrace u h nm nn))
    ∧ (∀ i, i < nm → ∀ j, j < nn →
        [Event.processMinedTransaction h i, Event.addMemPoolTransaction h j].Sublist
          (heightTrace u h nm nn)) := by
  refine ⟨heightTrace_countP_uma u h nm nn, heightTrace_countP_pmt u h nm nn, ?_, ?_⟩
  · intro i hi
    show ([Event.updateMovingAverages h] ++ [Event.processMinedTransaction h i]).Sublist _
    unfold heightTrace
    refine List.Sublist.append (List.singleton_sublist.mpr (by simp)) ?_
    refine List.Sublist.trans ?_ (List.sublist_append_left _ _)
    exact List.singleton_sublist.mpr (List.mem_map.mpr ⟨i, List.mem_range.mpr hi, rfl⟩)
  · intro i hi j hj
    show ([Event.processMinedTransaction h i] ++ [Event.addMemPoolTransaction h j]).Sublist _
    unfold heightTrace
    refine List.Sublist.trans ?_ (List.sublist_append_right _ _)
    refine List.Sublist.append ?_ ?_
    · exact List.singleton_sublist.mpr (List.mem_map.mpr ⟨i, List.mem_range.mpr hi, rfl⟩)
    · refine List.Sublist.trans ?_ (List.sublist_append_left _ _)
      exact List.singleton_sublist.mpr (List.mem_map.mpr ⟨j, List.mem_range.mpr hj, rfl⟩)

theorem uma_then_pmt_per_mined_tx_witness :
    (0 < 1)
    ∧ [Event.updateMovingAverages 1, Event.processMinedTransaction 1 0].Sublist
        (heightTrace false 1 1 1) :=
  ⟨by decide, (uma_then_pmt_per_mined_tx false 1 1 1).2.2.1 0 (by decide)⟩

/-- C3 counterexample: at height 1 with one mined transaction, the hooks are
not invoked in the claimed order `ProcessMinedTransaction` first then
`UpdateMovingAverages` (the code calls `UpdateMovingAverages` at line 237
before the `ProcessMinedTransaction` loop at lines 238–240); and with two
mined transactions `ProcessMinedTransaction` runs twice in a single height,
refuting "once per height". -/
theorem pmt_before_uma_cex :
    ¬ [Event.processMinedTransaction 1 0, Event.updateMovingAverages 1].Sublist
        (heightTrace false 1 1 0)
    ∧ (heightTrace false 1 2 0).countP isProcessMinedTransaction = 2 := by
  decide

/-- C5: the loop bounds of feesim.go lines 227–230 (`startHeight = 1`,
`endHeight = startHeight + L - 1`, `for h := startHeight; h < endHeight`)
simulate the heights `1 .. L-1`: for a configured run length `L = 2` only
height 1 is simulated — `L - 1` heights, one fewer than the `L` blocks the
flag (and the claim) promise. -/
theorem simulatedHeights_off_by_one :
    startHeight = 1
    ∧ simulatedHeights 2 = [1]
    ∧ (simulatedHeights 2).length = 1
    ∧ simulatedHeights 10 = [1, 2, 3, 4, 5, 6, 7, 8, 9] := by
  decide

/-- C9: in the trace of every completed run, `Close` occurs, no estimator
query (`EstimateFee` or `DumpBuckets`) occurs before the first `Close`, and
all `|targets| + 1` estimator queries of the report occur (necessarily after
it): teardown precedes all post-run estimator queries. -/
theorem close_precedes_estimator_queries (u : Bool) (L : Nat) (mc nc : Nat → Nat)
    (ts : List Int) :
    Event.close ∈ runTrace u L mc nc ts
    ∧ ((runTrace u L mc nc ts).takeWhile fun e => !(isClose e)).countP isEstimatorQuery = 0
    ∧ (runTrace u L mc nc ts).countP isEstimatorQuery = ts.length + 1 := by
  have hqzero : ((simulatedHeights L).flatMap
      fun h => heightTrace u h (mc h) (nc h)).countP isEstimatorQuery = 0 :=
    countP_flatMap_of_zero _ _ _ (fun h _ => heightTrace_countP_query u h (mc h) (nc h))
  have hloop : ∀ e ∈ ((simulatedHeights L).flatMap
      fun h => heightTrace u h (mc h) (nc h)), (!(isClose e)) = true := by
    intro e he
    have h0 : ((simulatedHeights L).flatMap
        fun h => heightTrace u h (mc h) (nc h)).countP isClose = 0 :=
      countP_flatMap_of_zero _ _ _ (fun h _ => heightTrace_countP_close u h (mc h) (nc h))
    have h1 := List.countP_eq_zero.mp h0 e he
    simpa using h1
  refine ⟨?_, ?_, ?_⟩
  · unfold runTrace
    exact List.mem_append_right _ (List.mem_cons_self _ _)
  · unfold runTrace
    rw [takeWhile_append_all hloop, List.takeWhile_cons]
    simp only [isClose, Bool.not_true, if_false, List.countP_append]
    simpa using hqzero
  · unfold runTrace
    rw [List.countP_append, hqzero]
    simp [List.countP_cons, List.countP_append, List.countP_map, Function.comp_def,
      isEstimatorQuery, List.countP_true]

/-! ## Claims about argument validation -/

/-- C4: evaluation of the argument check at the inputs the claim covers.
The bound test `testNb-1 > len(testCases)` (feesim.go line 199) accepts
`testNb = 9`, `0`, and negatives, after which `testCases[testNb-1]` panics
(Go runtime exit code 2) instead of printing the range message and exiting
with code 1 — the error message at line 200 documents the intended range
1–8; only `testNb ≥ 10` takes the exit-1 branch.  Missing and non-numeric
arguments do exit with code 1, and in-range values run the selected test. -/
theorem cliCheck_out_of_range_panics :
    cliCheck (ParsedArg.number 9) = CliResult.panicIndexOutOfRange
    ∧ cliCheck (ParsedArg.number 0) = CliResult.panicIndexOutOfRange
    ∧ cliCheck (ParsedArg.number (-3)) = CliResult.panicIndexOutOfRange
    ∧ cliCheck (ParsedArg.number 10) = CliResult.exitOutOfRange
    ∧ cliCheck ParsedArg.missing = CliResult.exitMissingArg
    ∧ cliCheck ParsedArg.notNumber = CliResult.exitNotNumber
    ∧ cliCheck (ParsedArg.number 1) = CliResult.run 0
    ∧ cliCheck (ParsedArg.number 8) = CliResult.run 7 := by
  decide

/-! ## Claims about the post-run report -/

theorem joinCells_foldl (cs : List String) (a : String) :
    cs.foldl (fun acc c => acc ++ c) a = a ++ joinCells cs := by
  induction cs generalizing a with
  | nil => simp [joinCells]
  | cons c rest ih =>
      simp only [joinCells, List.foldl_cons]
      rw [ih (a ++ c), ih ("" ++ c)]
      simp [String.append_assoc]

theorem joinCells_cons (c : String) (cs : List String) :
    joinCells (c :: cs) = c ++ joinCells cs := by
  simp only [joinCells, List.foldl_cons]
  rw [joinCells_foldl]
  simp [joinCells]

theorem reportLines_foldl (estimate : Int → EstimateResult) (ts : List Int)
    (a b : String) :
    ts.foldl (fun p t => (p.1 ++ confCell t, p.2 ++ renderCell (estimate t))) (a, b)
      = (a ++ joinCells (ts.map confCell), b ++ joinCells (reportCells estimate ts)) := by
  induction ts generalizing a b with
  | nil => simp [joinCells, reportCells]
  | cons t rest ih =>
      simp only [List.foldl_cons, List.map_cons, reportCells]
      rw [ih]
      simp [reportCells, joinCells_cons, String.append_assoc]

theorem reportLines_eq (estimate : Int → EstimateResult) (ts : List Int) :
    reportLines estimate ts
      = (joinCells (ts.map confCell), joinCells (reportCells estimate ts)) := by
  unfold reportLines
  rw [reportLines_foldl]
  simp

/-- C6: each of the three distinguished `EstimateFee` error kinds is caught
and rendered as its own distinct 12-character diagnostic marker, and no
outcome stops the report: line `l2` is the concatenation of exactly one cell
per configured target confirmation, whatever the estimator returns for each
target. -/
theorem distinguished_estimate_errors_rendered (estimate : Int → EstimateResult)
    (ts : List Int) :
    (reportLines estimate ts).2 = joinCells (reportCells estimate ts)
    ∧ (reportCells estimate ts).length = ts.length
    ∧ renderCell EstimateResult.errNoSuccessPctBucketFound = "   noSuccBkt"
    ∧ renderCell EstimateResult.errNotEnoughTxsForEstimate = "   notEnghTx"
    ∧ renderCell EstimateResult.errTargetConfTooLarge = " cftTooLarge"
    ∧ renderCell EstimateResult.errNoSuccessPctBucketFound
        ≠ renderCell EstimateResult.errNotEnoughTxsForEstimate
    ∧ renderCell EstimateResult.errNoSuccessPctBucketFound
        ≠ renderCell EstimateResult.errTargetConfTooLarge
    ∧ renderCell EstimateResult.errNotEnoughTxsForEstimate
        ≠ renderCell EstimateResult.errTargetConfTooLarge := by
  refine ⟨?_, ?_, rfl, rfl, rfl, by decide, by decide, by decide⟩
  · rw [reportLines_eq]
  · simp [reportCells]

/-- C10: every `EstimateFee` error other than the three distinguished kinds
takes the final `else` branch and is rendered as the generic `err` marker
for its target, and the rendering is total: line `l2` always consists of one
cell for every configured target confirmation — no outcome aborts the
report. -/
theorem unknown_estimate_error_generic (estimate : Int → EstimateResult)
    (ts : List Int) :
    renderCell EstimateResult.errOther = "         err"
    ∧ (∀ t, estimate t = EstimateResult.errOther →
        renderCell (estimate t) = "         err")
    ∧ (reportLines estimate ts).2 = joinCells (reportCells estimate ts)
    ∧ (reportCells estimate ts).length = ts.length := by
  refine ⟨rfl, fun t ht => by rw [ht]; rfl, ?_, by simp [reportCells]⟩

  rw [reportLines_eq]

theorem unknown_estimate_error_generic_witness :
    (fun _ : Int => EstimateResult.errOther) 1 = EstimateResult.errOther
    ∧ renderCell ((fun _ : Int => EstimateResult.errOther) 1) = "         err" :=
  ⟨rfl, (unknown_estimate_error_generic (fun _ => EstimateResult.errOther) [1]).2.1 1 rfl⟩

/-! ## Claims about the block miner -/

theorem extractAux_sublist (minRate : ℚ) (budget : Nat) (pool : List SimTx) :
    ∀ used, (extractAux minRate budget pool used).1.Sublist pool := by
  induction pool with
  | nil =>
      intro used
      simp [extractAux]
  | cons tx rest ih =>
      intro used
      simp only [extractAux]
      split
      · exact (ih (used + tx.size)).cons₂ tx
      · exact List.nil_sublist _

theorem extractAux_minRate (minRate : ℚ) (budget : Nat) (pool : List SimTx) :
    ∀ used, ∀ tx ∈ (extractAux minRate budget pool used).1, minRate ≤ feeRate tx := by
  induction pool with
  | nil =>
      intro used tx htx
      simp [extractAux] at htx
  | cons t rest ih =>
      intro used tx htx
      simp only [extractAux] at htx
      by_cases hc : minRate ≤ feeRate t ∧ used + t.size ≤ budget
      · rw [if_pos hc] at htx
        rcases List.mem_cons.mp htx with rfl | hmem
        · exact hc.1
        · exact ih (used + t.size) tx hmem
      · rw [if_neg hc] at htx
        simp at htx

theorem extractAux_size (minRate : ℚ) (budget : Nat) (pool : List SimTx) :
    ∀ used, used + ((extractAux minRate budget pool used).1.map SimTx.size).sum ≤ budget
      ∨ (extractAux minRate budget pool used).1 = [] := by
  induction pool with
  | nil =>
      intro used
      right
      simp [extractAux]
  | cons t rest ih =>
      intro used
      simp only [extractAux]
      by_cases hc : minRate ≤ feeRate t ∧ used + t.size ≤ budget
      · rw [if_pos hc]
        left
        rcases ih (used + t.size) with hle | hnil
        · simpa [Nat.add_assoc] using hle
        · simpa [hnil] using hc.2
      · rw [if_neg hc]
        right
        rfl

/-- C7: for every mined block — `MineBlock` on a pool in
fee-rate-descending order, with any size budget and any minimum relay fee
rate — every included transaction has fee rate at least the minimum relay
fee rate, the result is sorted descending by fee rate, and the sum of the
included transactions' sizes does not exceed the block size budget. -/
theorem mined_block_guarantees (pool : List SimTx) (budget : Nat) (minRate : ℚ)
    (hsorted : List.Sorted feeRateDesc pool) :
    (∀ tx ∈ (mineBlock pool budget minRate).1, minRate ≤ feeRate tx)
    ∧ List.Sorted feeRateDesc (mineBlock pool budget minRate).1
    ∧ (((mineBlock pool budget minRate).1).map SimTx.size).sum ≤ budget := by
  refine ⟨fun tx htx => extractAux_minRate minRate budget pool 0 tx htx, ?_, ?_⟩
  · exact List.Pairwise.sublist (extractAux_sublist minRate budget pool 0) hsorted
  · rcases extractAux_size minRate budget pool 0 with hle | hnil
    · simpa using hle
    · show ((extractAux minRate budget pool 0).1.map SimTx.size).sum ≤ budget
      simp [hnil]

theorem mined_block_guarantees_witness :
    List.Sorted feeRateDesc samplePool
    ∧ (((mineBlock samplePool 3 0).1).map SimTx.size).sum ≤ 3 :=
  ⟨by norm_num [List.sorted_cons, feeRateDesc, feeRate, samplePool],
   (mined_block_guarantees samplePool 3 0
      (by norm_num [List.sorted_cons, feeRateDesc, feeRate, samplePool])).2.2⟩

/-! ## Determinism of the run -/

/-- C8: the whole simulation is a deterministic function of the random seed
and the configuration — two runs with equal seeds, equal configurations and
equal lengths produce identical sequences of generated transactions, mined
transactions, and histogram snapshots. -/
theorem simulation_deterministic (s1 s2 : Nat) (c1 c2 : simulatorConfig)
    (L1 L2 : Nat) (hs : s1 = s2) (hc : c1 = c2) (hL : L1 = L2) :
    (runSimulation s1 c1 L1).genSeq = (runSimulation s2 c2 L2).genSeq
    ∧ (runSimulation s1 c1 L1).minedSeq = (runSimulation s2 c2 L2).minedSeq
    ∧ (runSimulation s1 c1 L1).histSnapshots = (runSimulation s2 c2 L2).histSnapshots := by
  subst hs hc hL
  exact ⟨rfl, rfl, rfl⟩

theorem simulation_deterministic_witness :
    ((42 : Nat) = 42)
    ∧ (runSimulation 42 sampleConfig 3).genSeq = (runSimulation 42 sampleConfig 3).genSeq :=
  ⟨rfl, (simulation_deterministic 42 42 sampleConfig sampleConfig 3 3 rfl rfl rfl).1⟩

end Feesim
